import Mathlib

/-!
Shallow embedding of the gmail-processor repository's core logic
(`src/rule_engine.py`, `src/email_storage.py`) and verification of its
specification claims.

Conventions of the embedding:
* Python strings are Lean `String`s; Python's substring test `t in v`
  is `strIn`.
* A Python `timedelta` is an integer number of seconds (`Value.vdur`).
* Python exceptions (`TypeError`, `ValueError`, `KeyError`) are modelled
  with `Except PyErr`; a function that cannot raise returns plainly.
* `datetime.now()` is an explicit `now`/`age` parameter; `strptime` is an
  explicit function parameter `strp : format → string → Option Int`
  (returning `none` for Python's `ValueError`), since its behaviour is
  that of the Python standard library, not of this repository.
-/

set_option autoImplicit false

deriving instance DecidableEq for Except

namespace GmailProc

/-- Python exception kinds that the embedded code can raise. -/
inductive PyErr where
  | typeError
  | valueError
  | keyError
deriving DecidableEq, Repr

/-- `isPreOf t v`: the char list `t` is an initial segment of `v`. -/
def isPreOf : List Char → List Char → Bool
  | [], _ => true
  | _ :: _, [] => false
  | a :: as, b :: bs => a == b && isPreOf as bs

/-- `subOf t v`: the char list `t` occurs contiguously inside `v`
(Python's `t in v` for strings). -/
def subOf (t : List Char) : List Char → Bool
  | [] => isPreOf t []
  | b :: vs => isPreOf t (b :: vs) || subOf t vs

/-- Python's substring test `t in v`. -/
def strIn (t v : String) : Bool := subOf t.data v.data

/-- Python's `str.lower()` (ASCII case folding suffices for the
identifiers compared in the source). -/
def pyLower (s : String) : String := ⟨s.data.map Char.toLower⟩

/-- A resolved field value: a string field, or the elapsed duration
`now - date_received` (a `timedelta`, in seconds) for `date_received`. -/
inductive Value where
  | vstr (s : String)
  | vdur (secs : Int)
deriving DecidableEq, Repr

/-- A condition's `value` entry as read from the JSON rules file:
a string or an integer. -/
inductive TargetVal where
  | tstr (s : String)
  | tint (n : Int)
deriving DecidableEq, Repr

/-- Python truthiness of a field value (`if value:`): the empty string
and the zero timedelta are falsy. -/
def Value.truthy : Value → Bool
  | .vstr s => !(s == "")
  | .vdur d => !(d == 0)

namespace RuleEngine

/-- `'contains'`: `lambda value, target: target in value if value else False`.
A truthy non-string value (a timedelta) makes `target in value` raise
`TypeError`; an integer target against a string raises `TypeError` too. -/
def pyContains (value : Value) (target : TargetVal) : Except PyErr Bool :=
  if value.truthy then
    match value, target with
    | .vstr s, .tstr t => .ok (strIn t s)
    | .vstr _, .tint _ => .error .typeError
    | .vdur _, _ => .error .typeError
  else .ok false

/-- `'does_not_contain'`: `lambda value, target: target not in value if value else True`. -/
def pyDoesNotContain (value : Value) (target : TargetVal) : Except PyErr Bool :=
  if value.truthy then
    match value, target with
    | .vstr s, .tstr t => .ok (!strIn t s)
    | .vstr _, .tint _ => .error .typeError
    | .vdur _, _ => .error .typeError
  else .ok true

/-- `'equals'`: `lambda value, target: value == target`. Python `==`
across types yields `False`, never an error. -/
def pyEquals (value : Value) (target : TargetVal) : Except PyErr Bool :=
  .ok (match value, target with
    | .vstr s, .tstr t => s == t
    | _, _ => false)

/-- `'does_not_equal'`: `lambda value, target: value != target`. -/
def pyDoesNotEqual (value : Value) (target : TargetVal) : Except PyErr Bool :=
  .ok (match value, target with
    | .vstr s, .tstr t => !(s == t)
    | _, _ => true)

/-- Digit-string accumulator for `pyIntOfString`. -/
def digitsAux : List Char → Nat → Option Nat
  | [], acc => some acc
  | c :: cs, acc =>
    if c.isDigit then digitsAux cs (acc * 10 + (c.toNat - 48)) else none

/-- Python `int()` applied to a string: an optional sign followed by at
least one digit (whitespace/underscore tolerance of CPython is not
modelled; only canonical integer literals occur here). -/
def pyIntOfString (s : String) : Option Int :=
  match s.data with
  | [] => none
  | '-' :: rest =>
    if rest.isEmpty then none else (digitsAux rest 0).map (fun n => -(n : Int))
  | '+' :: rest =>
    if rest.isEmpty then none else (digitsAux rest 0).map (fun n => (n : Int))
  | l => (digitsAux l 0).map (fun n => (n : Int))

/-- `int(days)` on a condition value: identity on an integer, parse on a
string, `ValueError` on an unparseable string. -/
def pyInt : TargetVal → Except PyErr Int
  | .tint n => .ok n
  | .tstr s =>
    match pyIntOfString s with
    | some n => .ok n
    | none => .error .valueError

def secondsPerDay : Int := 86400

/-- `'less_than_days'`: `lambda age, days: age < timedelta(days=int(days))`.
`int(days)` is evaluated first (possible `ValueError`); comparing a
string field value with a timedelta raises `TypeError`. -/
def pyLessThanDays (value : Value) (target : TargetVal) : Except PyErr Bool :=
  match pyInt target with
  | .error er => .error er
  | .ok n =>
    match value with
    | .vdur age => .ok (decide (age < n * secondsPerDay))
    | .vstr _ => .error .typeError

/-- `'greater_than_days'`: `lambda age, days: age > timedelta(days=int(days))`. -/
def pyGreaterThanDays (value : Value) (target : TargetVal) : Except PyErr Bool :=
  match pyInt target with
  | .error er => .error er
  | .ok n =>
    match value with
    | .vdur age => .ok (decide (age > n * secondsPerDay))
    | .vstr _ => .error .typeError

/-- The keys of the `PREDICATES` dict, in source order. -/
def PREDICATES : List String :=
  ["contains", "does_not_contain", "equals", "does_not_equal",
   "less_than_days", "greater_than_days"]

/-- Dispatch through the `PREDICATES` dict. Looking up a name not in the
dict would raise `KeyError`; the callers guard membership first, so that
branch is unreachable from them. -/
def predApply (name : String) (value : Value) (target : TargetVal) :
    Except PyErr Bool :=
  if name == "contains" then pyContains value target
  else if name == "does_not_contain" then pyDoesNotContain value target
  else if name == "equals" then pyEquals value target
  else if name == "does_not_equal" then pyDoesNotEqual value target
  else if name == "less_than_days" then pyLessThanDays value target
  else if name == "greater_than_days" then pyGreaterThanDays value target
  else .error .keyError

/-- One condition of a rule: the required dict keys `field`, `predicate`,
`value`. -/
structure Cond where
  field : String
  predicate : String
  value : TargetVal
deriving DecidableEq, Repr

/-- The email data after the shape handling at the top of `evaluate`:
`from_email`, `subject`, `message_content`, and the elapsed duration
`age = now - date_received` (seconds) used for the `date_received` field. -/
structure EmailVals where
  from_email : String
  subject : String
  message_content : String
  age : Int
deriving DecidableEq, Repr

/-- Field resolution shared by `_all_conditions_met` / `_any_conditions_met`:
lowercase the field name, select the matching email value, `none` for an
unknown field name (the logged-warning branches). -/
def fieldValue (e : EmailVals) (f : String) : Option Value :=
  let field_name := pyLower f
  if field_name == "from" then some (.vstr e.from_email)
  else if field_name == "subject" then some (.vstr e.subject)
  else if field_name == "message" then some (.vstr e.message_content)
  else if field_name == "date_received" then some (.vdur e.age)
  else none

/-- `RuleEngine._all_conditions_met`: walk the conditions in order; an
unknown field or predicate name returns `False` immediately; a condition
evaluating false returns `False`; the empty list returns `True`. -/
def all_conditions_met (e : EmailVals) : List Cond → Except PyErr Bool
  | [] => .ok true
  | c :: rest =>
    match fieldValue e c.field with
    | none => .ok false
    | some v =>
      if PREDICATES.contains c.predicate then
        match predApply c.predicate v c.value with
        | .error er => .error er
        | .ok true => all_conditions_met e rest
        | .ok false => .ok false
      else .ok false

/-- `RuleEngine._any_conditions_met`: the empty list returns `False`; an
unknown field or predicate name skips the condition (`continue`); a
condition evaluating true returns `True`; exhausting the list returns
`False`. -/
def any_conditions_met (e : EmailVals) : List Cond → Except PyErr Bool
  | [] => .ok false
  | c :: rest =>
    match fieldValue e c.field with
    | none => any_conditions_met e rest
    | some v =>
      if PREDICATES.contains c.predicate then
        match predApply c.predicate v c.value with
        | .error er => .error er
        | .ok true => .ok true
        | .ok false => any_conditions_met e rest
      else any_conditions_met e rest

/-- One action dict: required key `type`; `mailbox` may be absent
(`none` models a dict without the key, so reading it raises `KeyError`). -/
structure ActionDict where
  type : String
  mailbox : Option String
deriving DecidableEq, Repr

/-- One rule dict: `mode` may be absent (`rule.get('mode', 'all')`);
`conditions` and `actions` are required keys. -/
structure Rule where
  mode : Option String
  conditions : List Cond
  actions : List ActionDict
deriving DecidableEq, Repr

/-- `RuleEngine.evaluate`, after the email-shape handling: for each rule
in order, lowercase its mode (defaulting to `'all'`), run the matching
condition check, and extend the accumulated action list with the rule's
actions when it fires. A mode that is neither `'all'` nor `'any'` matches
no branch. -/
def evaluate (e : EmailVals) : List Rule → Except PyErr (List ActionDict)
  | [] => .ok []
  | r :: rest =>
    let rule_mode := pyLower (r.mode.getD "all")
    if rule_mode == "all" then
      match all_conditions_met e r.conditions with
      | .error er => .error er
      | .ok true =>
        match evaluate e rest with
        | .error er => .error er
        | .ok acc => .ok (r.actions ++ acc)
      | .ok false => evaluate e rest
    else if rule_mode == "any" then
      match any_conditions_met e r.conditions with
      | .error er => .error er
      | .ok true =>
        match evaluate e rest with
        | .error er => .error er
        | .ok acc => .ok (r.actions ++ acc)
      | .ok false => evaluate e rest
    else evaluate e rest

/-- The loop body of `RuleEngine.apply_actions`, with the two
accumulator lists. `action['mailbox']` on a `move_message` action whose
dict lacks the key raises `KeyError`; an action of unknown type matches
no branch. Membership tests are against the original `labels` argument
throughout. -/
def apply_actions_loop (labels : List String) :
    List ActionDict → List String → List String →
    Except PyErr (List String × List String)
  | [], add_labels, remove_labels => .ok (add_labels, remove_labels)
  | a :: rest, add_labels, remove_labels =>
    if a.type == "move_message" then
      match a.mailbox with
      | none => .error .keyError
      | some mb =>
        if labels.contains mb then
          apply_actions_loop labels rest add_labels remove_labels
        else
          apply_actions_loop labels rest (add_labels ++ [mb]) remove_labels
    else if a.type == "mark_read" then
      if labels.contains "UNREAD" then
        apply_actions_loop labels rest add_labels (remove_labels ++ ["UNREAD"])
      else
        apply_actions_loop labels rest add_labels remove_labels
    else if a.type == "mark_unread" then
      if labels.contains "UNREAD" then
        apply_actions_loop labels rest add_labels remove_labels
      else
        apply_actions_loop labels rest (add_labels ++ ["UNREAD"]) remove_labels
    else
      apply_actions_loop labels rest add_labels remove_labels

/-- `RuleEngine.apply_actions`: run the loop from empty accumulators and
record whether `client.modify_email` is called (`if add_labels or
remove_labels:`). -/
def apply_actions (labels : List String) (actions : List ActionDict) :
    Except PyErr (List String × List String × Bool) :=
  match apply_actions_loop labels actions [] [] with
  | .error er => .error er
  | .ok (a, r) => .ok (a, r, !a.isEmpty || !r.isEmpty)

/-- The possible outcomes of reading and JSON-decoding the rules file in
`RuleEngine._load_rules`: the file may be absent (`FileNotFoundError`),
syntactically invalid (`json.JSONDecodeError`), or parse to a rule list. -/
inductive RulesSource where
  | fileNotFound
  | jsonDecodeError
  | parsed (rules : List Rule)

/-- `RuleEngine._load_rules`: both exception branches return `[]`; an
empty parsed list also returns `[]` (the `if not rules` branch). -/
def load_rules : RulesSource → List Rule
  | .fileNotFound => []
  | .jsonDecodeError => []
  | .parsed rules => if rules.isEmpty then [] else rules

/-- The field names recognised by the evaluation loops. -/
def knownFieldName (f : String) : Bool :=
  pyLower f == "from" || pyLower f == "subject" ||
  pyLower f == "message" || pyLower f == "date_received"

/-- A condition that fails to resolve: unknown field name or unknown
predicate name. -/
def unresolvedCond (c : Cond) : Bool :=
  !knownFieldName c.field || !(PREDICATES.contains c.predicate)

/-- The labels one action contributes to the `add_labels` accumulator of
`apply_actions` (the `append` branches of the loop, against the original
`labels`). -/
def actAdds (labels : List String) (a : ActionDict) : List String :=
  if a.type == "move_message" then
    match a.mailbox with
    | some mb => if labels.contains mb then [] else [mb]
    | none => []
  else if a.type == "mark_read" then []
  else if a.type == "mark_unread" then
    if labels.contains "UNREAD" then [] else ["UNREAD"]
  else []

/-- The labels one action contributes to the `remove_labels` accumulator
of `apply_actions`. -/
def actRems (labels : List String) (a : ActionDict) : List String :=
  if a.type == "move_message" then []
  else if a.type == "mark_read" then
    if labels.contains "UNREAD" then ["UNREAD"] else []
  else []

/-- Concatenated `add_labels` contributions of an action list. -/
def addsList (labels : List String) : List ActionDict → List String
  | [] => []
  | a :: rest => actAdds labels a ++ addsList labels rest

/-- Concatenated `remove_labels` contributions of an action list. -/
def remsList (labels : List String) : List ActionDict → List String
  | [] => []
  | a :: rest => actRems labels a ++ remsList labels rest

/-- No action in the list is a `move_message` whose dict lacks the
`mailbox` key (the only way the `apply_actions` loop can raise). -/
def errFree (acts : List ActionDict) : Bool :=
  acts.all (fun a => !(a.type == "move_message" && a.mailbox.isNone))

/-- The action `a` makes the loop append `x` to `add_labels`. -/
def addedBy (labels : List String) (a : ActionDict) (x : String) : Prop :=
  (a.type = "move_message" ∧ a.mailbox = some x ∧ x ∉ labels)
  ∨ (a.type = "mark_unread" ∧ x = "UNREAD" ∧ "UNREAD" ∉ labels)

/-- The action `a` makes the loop append `x` to `remove_labels`. -/
def removedBy (labels : List String) (a : ActionDict) (x : String) : Prop :=
  a.type = "mark_read" ∧ x = "UNREAD" ∧ "UNREAD" ∈ labels

/-- The label set after the mutation sink applies a delta: the removed
labels are dropped and the added ones appended. -/
def labelsAfter (labels add rem : List String) : List String :=
  labels.filter (fun l => !rem.contains l) ++ add

/-! ### Concrete inputs used by the witness theorems -/

def exEmail : EmailVals := ⟨"newsletter@x.com", "hello", "no unsubscribe link", 100⟩

def exCondTrue : Cond := ⟨"from", "contains", .tstr "newsletter"⟩

def exCondBad : Cond := ⟨"folder", "contains", .tstr "x"⟩

def exAct : ActionDict := ⟨"mark_read", none⟩

def exBadRule : Rule := ⟨some "bogus", [], [exAct]⟩

def exMoveArchive : ActionDict := ⟨"move_message", some "ARCHIVE"⟩

def exMoveNoMailbox : ActionDict := ⟨"move_message", none⟩

end RuleEngine

namespace EmailStorage

/-- One email dict handed to `EmailStorage.save_email`: `message_id`,
`from` (here `from_addr`), `subject`, `date_received`, `labels` are
required keys; `thread_id` and `message` are read with `.get(_, '')`. -/
structure EmailDict where
  message_id : String
  thread_id : Option String
  from_addr : String
  subject : String
  date_received : String
  labels : List String
  message : Option String
deriving DecidableEq, Repr

/-- One row of the `emails` table. The `labels` column holds
`json.dumps(email['labels'])`; the JSON encoding is injective on string
lists, so the column is modelled as the list itself. -/
structure Row where
  message_id : String
  thread_id : String
  from_email : String
  subject : String
  date_received : Int
  labels : List String
  message : String
deriving DecidableEq, Repr

/-- `email['date_received'].split(' (')[0]`: the segment before the
first occurrence of the two-character separator `' ('` (the whole string
when absent). -/
def splitAtParen : List Char → List Char
  | [] => []
  | ' ' :: '(' :: _ => []
  | c :: rest => c :: splitAtParen rest

def date_str_of (s : String) : String := ⟨splitAtParen s.data⟩

/-- The `date_formats` list of `save_email`, in source order. -/
def date_formats : List String :=
  ["%a, %d %b %Y %H:%M:%S %z", "%d %b %Y %H:%M:%S %z"]

/-- The format loop of `save_email`: try each format in order with
`strptime`; the first success breaks out of the loop. -/
def try_formats (strp : String → String → Option Int) (ds : String) :
    List String → Option Int
  | [] => none
  | f :: rest =>
    match strp f ds with
    | some t => some t
    | none => try_formats strp ds rest

/-- The date handling of `save_email`: strip the parenthesised suffix,
try the formats in order, and fall back to `int(time.time())` (`now`)
when every format fails (the logged-warning branch). -/
def parse_received_date (strp : String → String → Option Int) (now : Int)
    (s : String) : Int :=
  match try_formats strp (date_str_of s) date_formats with
  | some t => t
  | none => now

/-- The row built by the `INSERT` values of `save_email`. -/
def mkRow (email : EmailDict) (date : Int) : Row :=
  { message_id := email.message_id
    thread_id := email.thread_id.getD ""
    from_email := email.from_addr
    subject := email.subject
    date_received := date
    labels := email.labels
    message := email.message.getD "" }

/-- The SQL statement `INSERT ... ON CONFLICT(message_id) DO UPDATE SET
labels = excluded.labels` against a table state: on a key conflict only
the `labels` column of the conflicting row is overwritten; otherwise the
new row is appended. -/
def upsert_row (db : List Row) (email : EmailDict) (date : Int) : List Row :=
  if db.any (fun r => r.message_id == email.message_id) then
    db.map (fun r =>
      if r.message_id == email.message_id then { r with labels := email.labels } else r)
  else db ++ [mkRow email date]

/-- `EmailStorage.save_email`: parse the date (with fallback `now`),
upsert the row, and return the new table state together with the
returned timestamp. -/
def save_email (strp : String → String → Option Int) (now : Int)
    (db : List Row) (email : EmailDict) : List Row × Int :=
  let date := parse_received_date strp now email.date_received
  (upsert_row db email date, date)

/-- `EmailStorage.save_emails`: the same per-email logic folded over a
batch. -/
def save_emails (strp : String → String → Option Int) (now : Int)
    (db : List Row) : List EmailDict → List Row
  | [] => db
  | e :: rest => save_emails strp now (save_email strp now db e).1 rest

/-- Key uniqueness: the `PRIMARY KEY` constraint of the `emails` table. -/
def keyUnique (db : List Row) : Prop :=
  List.Pairwise (fun r s => r.message_id ≠ s.message_id) db

/-- A `strptime` model that fails on every format (a malformed date). -/
def strpNone : String → String → Option Int := fun _ _ => none

/-- A `strptime` model that succeeds only on the first format. -/
def strpFirst : String → String → Option Int :=
  fun f _ => if f = "%a, %d %b %Y %H:%M:%S %z" then some 11 else none

/-- A `strptime` model that succeeds only on the second format. -/
def strpSecond : String → String → Option Int :=
  fun f _ => if f = "%d %b %Y %H:%M:%S %z" then some 22 else none

def exDict1 : EmailDict :=
  ⟨"m1", some "t1", "a@b.com", "Hi", "bad date", ["INBOX"], some "body one"⟩

def exDict2 : EmailDict :=
  ⟨"m1", some "t1", "a@b.com", "Hi", "bad date", ["INBOX", "UNREAD"], some "body two"⟩

def exRow : Row := mkRow exDict1 5

end EmailStorage

namespace RuleEngine

/-! ### Helper lemmas: condition evaluation -/

theorem fieldValue_none_iff (e : EmailVals) (f : String) :
    fieldValue e f = none ↔ knownFieldName f = false := by
  simp only [fieldValue, knownFieldName]
  split_ifs <;> simp_all

theorem all_conditions_met_append (e : EmailVals) (xs ys : List Cond) :
    all_conditions_met e (xs ++ ys) =
      match all_conditions_met e xs with
      | .error er => .error er
      | .ok true => all_conditions_met e ys
      | .ok false => .ok false := by
  induction xs with
  | nil => simp [all_conditions_met]
  | cons c rest ih =>
    simp only [List.cons_append, all_conditions_met]
    cases hf : fieldValue e c.field with
    | none => rfl
    | some v =>
      by_cases hp : PREDICATES.contains c.predicate
      · simp only [hp, if_true]
        cases hpa : predApply c.predicate v c.value with
        | error er => rfl
        | ok b => cases b <;> simp [ih]
      · have hp2 : c.predicate ∉ PREDICATES := by simpa using hp
        simp [hp2]

theorem any_conditions_met_append (e : EmailVals) (xs ys : List Cond) :
    any_conditions_met e (xs ++ ys) =
      match any_conditions_met e xs with
      | .error er => .error er
      | .ok true => .ok true
      | .ok false => any_conditions_met e ys := by
  induction xs with
  | nil => simp [any_conditions_met]
  | cons c rest ih =>
    simp only [List.cons_append, any_conditions_met]
    cases hf : fieldValue e c.field with
    | none => exact ih
    | some v =>
      by_cases hp : PREDICATES.contains c.predicate
      · simp only [hp, if_true]
        cases hpa : predApply c.predicate v c.value with
        | error er => rfl
        | ok b => cases b <;> simp [ih]
      · have hp2 : c.predicate ∉ PREDICATES := by simpa using hp
        simp [hp2, ih]

theorem all_conditions_met_unresolved_head (e : EmailVals) (c : Cond)
    (ys : List Cond) (hc : unresolvedCond c = true) :
    all_conditions_met e (c :: ys) = .ok false := by
  simp only [all_conditions_met]
  cases hf : fieldValue e c.field with
  | none => rfl
  | some v =>
    have hk : knownFieldName c.field = true := by
      by_contra hk
      rw [(fieldValue_none_iff e c.field).mpr (by simpa using hk)] at hf
      cases hf
    have hp : PREDICATES.contains c.predicate = false := by
      simp only [unresolvedCond, hk, Bool.not_true, Bool.false_or,
        Bool.not_eq_true'] at hc
      exact hc
    have hp2 : c.predicate ∉ PREDICATES := by simpa using hp
    simp [hp2]

theorem any_conditions_met_unresolved_head (e : EmailVals) (c : Cond)
    (ys : List Cond) (hc : unresolvedCond c = true) :
    any_conditions_met e (c :: ys) = any_conditions_met e ys := by
  simp only [any_conditions_met]
  cases hf : fieldValue e c.field with
  | none => rfl
  | some v =>
    have hk : knownFieldName c.field = true := by
      by_contra hk
      rw [(fieldValue_none_iff e c.field).mpr (by simpa using hk)] at hf
      cases hf
    have hp : PREDICATES.contains c.predicate = false := by
      simp only [unresolvedCond, hk, Bool.not_true, Bool.false_or,
        Bool.not_eq_true'] at hc
      exact hc
    have hp2 : c.predicate ∉ PREDICATES := by simpa using hp
    simp [hp2]

theorem evaluate_bad_mode_cons (e : EmailVals) (r : Rule) (rest : List Rule)
    (h1 : pyLower (r.mode.getD "all") ≠ "all")
    (h2 : pyLower (r.mode.getD "all") ≠ "any") :
    evaluate e (r :: rest) = evaluate e rest := by
  simp [evaluate, beq_iff_eq, h1, h2]

/-! ### Claim theorems: rule evaluation -/

/-- C1: resolution failures are asymmetric across modes. For every email
and every condition list containing a condition with an unknown field or
predicate name, in ALL mode the evaluation returns `False` (provided the
prefix itself evaluates without raising), while in ANY mode the
unresolved condition is simply skipped: evaluation of the list equals
evaluation of the list with that condition removed, so the rule fires
exactly when some other condition evaluates true. -/
theorem resolution_failure_asymmetry (e : EmailVals) (xs ys : List Cond)
    (c : Cond) (hc : unresolvedCond c = true) :
    ((∃ b, all_conditions_met e xs = .ok b) →
      all_conditions_met e (xs ++ c :: ys) = .ok false)
    ∧ any_conditions_met e (xs ++ c :: ys) = any_conditions_met e (xs ++ ys) := by
  constructor
  · rintro ⟨b, hb⟩
    rw [all_conditions_met_append, hb]
    cases b
    · rfl
    · exact all_conditions_met_unresolved_head e c ys hc
  · rw [any_conditions_met_append, any_conditions_met_append]
    cases h : any_conditions_met e xs with
    | error er => rfl
    | ok b =>
      cases b
      · exact any_conditions_met_unresolved_head e c ys hc
      · rfl

/-- Witness for C1 at a concrete email and condition list. -/
theorem resolution_failure_asymmetry_witness :
    all_conditions_met exEmail ([exCondTrue] ++ exCondBad :: []) = .ok false
    ∧ any_conditions_met exEmail ([exCondTrue] ++ exCondBad :: []) =
        any_conditions_met exEmail ([exCondTrue] ++ []) := by
  have h := resolution_failure_asymmetry exEmail [exCondTrue] [] exCondBad (by decide)
  exact ⟨h.1 ⟨true, rfl⟩, h.2⟩

/-- C2: a rule with an empty condition list fires unconditionally in ALL
mode (its actions are prepended to whatever the remaining rules produce)
and never fires in ANY mode (it contributes nothing), for every email. -/
theorem empty_condition_list_modes (e : EmailVals) :
    all_conditions_met e [] = .ok true
    ∧ any_conditions_met e [] = .ok false
    ∧ ∀ (acts : List ActionDict) (rest : List Rule) (mo : Option String),
        (pyLower (mo.getD "all") = "all" →
          evaluate e (({ mode := mo, conditions := [], actions := acts } : Rule) :: rest)
            = (evaluate e rest).map (fun acc => acts ++ acc))
        ∧ (pyLower (mo.getD "all") = "any" →
          evaluate e (({ mode := mo, conditions := [], actions := acts } : Rule) :: rest)
            = evaluate e rest) := by
  refine ⟨rfl, rfl, ?_⟩
  intro acts rest mo
  constructor
  · intro hm
    simp only [evaluate, hm, all_conditions_met]
    cases hrest : evaluate e rest <;> simp [Except.map]
  · intro hm
    have hne : pyLower (mo.getD "all") ≠ "all" := by simp [hm]
    simp only [evaluate, any_conditions_met]
    simp [beq_iff_eq, hm, hne]

/-- Witness for C2 at a concrete email, action list, and both modes. -/
theorem empty_condition_list_modes_witness :
    evaluate exEmail (({ mode := some "ALL", conditions := [], actions := [exAct] } : Rule) :: [])
      = (evaluate exEmail []).map (fun acc => [exAct] ++ acc)
    ∧ evaluate exEmail (({ mode := some "any", conditions := [], actions := [exAct] } : Rule) :: [])
      = evaluate exEmail [] := by
  exact ⟨((empty_condition_list_modes exEmail).2.2 [exAct] [] (some "ALL")).1 (by decide),
         ((empty_condition_list_modes exEmail).2.2 [exAct] [] (some "any")).2 (by decide)⟩

/-- C8: a missing rules file and a file with invalid JSON both load as
the empty rule set, and evaluation under the empty rule set returns the
empty action list for every email. -/
theorem load_failure_yields_noop :
    load_rules .fileNotFound = []
    ∧ load_rules .jsonDecodeError = []
    ∧ ∀ e : EmailVals,
        evaluate e (load_rules .fileNotFound) = .ok []
        ∧ evaluate e (load_rules .jsonDecodeError) = .ok [] :=
  ⟨rfl, rfl, fun _ => ⟨rfl, rfl⟩⟩

/-- C9: `does_not_contain` is the pointwise negation of `contains`
(including on the error cases), `does_not_equal` is the pointwise
negation of `equals`, and the empty field value never satisfies
`contains` and always satisfies `does_not_contain`, whatever the target. -/
theorem negation_predicate_pairs (value : Value) (target : TargetVal) :
    pyDoesNotContain value target = Except.map not (pyContains value target)
    ∧ pyDoesNotEqual value target = Except.map not (pyEquals value target)
    ∧ pyContains (.vstr "") target = .ok false
    ∧ pyDoesNotContain (.vstr "") target = .ok true := by
  refine ⟨?_, ?_, ?_, ?_⟩
  · cases value <;> cases target <;>
      simp [pyContains, pyDoesNotContain, Value.truthy, Except.map] <;>
      split_ifs <;> rfl
  · cases value <;> cases target <;> rfl
  · rfl
  · rfl

/-- C10: a rule whose lowercased mode is neither `all` nor `any` never
fires: removing it from the rule list does not change `evaluate`'s
result on any email; and an absent `mode` key behaves exactly as the
explicit mode `all` (the default applies only to the absent key). -/
theorem unknown_mode_rule_dropped (e : EmailVals) (r : Rule)
    (h1 : pyLower (r.mode.getD "all") ≠ "all")
    (h2 : pyLower (r.mode.getD "all") ≠ "any") :
    (∀ rs1 rs2 : List Rule, evaluate e (rs1 ++ r :: rs2) = evaluate e (rs1 ++ rs2))
    ∧ ∀ (conds : List Cond) (acts : List ActionDict) (rest : List Rule),
        evaluate e (({ mode := none, conditions := conds, actions := acts } : Rule) :: rest)
        = evaluate e (({ mode := some "all", conditions := conds, actions := acts } : Rule) :: rest) := by
  constructor
  · intro rs1 rs2
    induction rs1 with
    | nil => simpa using evaluate_bad_mode_cons e r rs2 h1 h2
    | cons r2 t ih =>
      simp only [List.cons_append, evaluate]
      have ih2 : evaluate e (t.append (r :: rs2)) = evaluate e (t.append rs2) := ih
      rw [ih2]
  · intro conds acts rest
    rfl

/-! ### Helper lemmas: action application -/

theorem apply_actions_loop_eq (labels : List String) (acts : List ActionDict) :
    ∀ add rem, apply_actions_loop labels acts add rem =
      if errFree acts then
        .ok (add ++ addsList labels acts, rem ++ remsList labels acts)
      else .error .keyError := by
  induction acts with
  | nil => intro add rem; simp [apply_actions_loop, addsList, remsList, errFree]
  | cons a rest ih =>
    intro add rem
    obtain ⟨t, mbx⟩ := a
    by_cases h1 : t = "move_message"
    · subst h1
      cases mbx with
      | none => simp [apply_actions_loop, errFree]
      | some m =>
        by_cases hin : m ∈ labels <;>
          simp [apply_actions_loop, errFree, addsList, remsList, actAdds,
            actRems, ih, hin, List.append_assoc]
    · by_cases h2 : t = "mark_read"
      · subst h2
        by_cases hu : "UNREAD" ∈ labels <;>
          simp [apply_actions_loop, errFree, addsList, remsList, actAdds,
            actRems, ih, hu, h1, List.append_assoc]
      · by_cases h3 : t = "mark_unread"
        · subst h3
          by_cases hu : "UNREAD" ∈ labels <;>
            simp [apply_actions_loop, errFree, addsList, remsList, actAdds,
              actRems, ih, hu, h1, h2, List.append_assoc]
        · simp [apply_actions_loop, errFree, addsList, remsList, actAdds,
            actRems, ih, h1, h2, h3]

theorem apply_actions_eq (labels : List String) (acts : List ActionDict) :
    apply_actions labels acts =
      if errFree acts then
        .ok (addsList labels acts, remsList labels acts,
          !(addsList labels acts).isEmpty || !(remsList labels acts).isEmpty)
      else .error .keyError := by
  simp only [apply_actions, apply_actions_loop_eq]
  by_cases herr : errFree acts = true
  · simp [herr]
  · simp [herr]

theorem mem_actAdds (labels : List String) (a : ActionDict) (x : String) :
    x ∈ actAdds labels a ↔ addedBy labels a x := by
  obtain ⟨t, mb⟩ := a
  simp only [actAdds, addedBy]
  by_cases h1 : t = "move_message"
  · subst h1
    cases mb with
    | none => simp
    | some m =>
      by_cases hxm : x = m
      · subst hxm
        by_cases hin : x ∈ labels <;> simp [hin]
      · by_cases hin : m ∈ labels <;> simp [hin, hxm, Ne.symm hxm]
  · by_cases h2 : t = "mark_unread"
    · subst h2
      by_cases hu : "UNREAD" ∈ labels <;> simp [hu]
    · by_cases h3 : t = "mark_read"
      · subst h3; simp
      · simp [h1, h2, h3]

theorem mem_actRems (labels : List String) (a : ActionDict) (x : String) :
    x ∈ actRems labels a ↔ removedBy labels a x := by
  obtain ⟨t, mb⟩ := a
  simp only [actRems, removedBy]
  by_cases h2 : t = "mark_read"
  · subst h2
    by_cases hu : "UNREAD" ∈ labels <;> simp [hu]
  · by_cases h1 : t = "move_message"
    · subst h1; simp
    · by_cases h3 : t = "mark_unread"
      · subst h3; simp
      · simp [h1, h2, h3]

theorem mem_addsList (labels : List String) (acts : List ActionDict) (x : String) :
    x ∈ addsList labels acts ↔ ∃ a ∈ acts, addedBy labels a x := by
  induction acts with
  | nil => simp [addsList]
  | cons a rest ih => simp [addsList, mem_actAdds, ih, List.mem_append]

theorem mem_remsList (labels : List String) (acts : List ActionDict) (x : String) :
    x ∈ remsList labels acts ↔ ∃ a ∈ acts, removedBy labels a x := by
  induction acts with
  | nil => simp [remsList]
  | cons a rest ih => simp [remsList, mem_actRems, ih, List.mem_append]

theorem mem_labelsAfter (labels add rem : List String) (x : String) :
    x ∈ labelsAfter labels add rem ↔ (x ∈ labels ∧ x ∉ rem) ∨ x ∈ add := by
  simp [labelsAfter, List.mem_filter, List.mem_append]

/-! ### Claim theorems: action application -/

/-- C3: the computed delta is minimal and honest. Whenever
`apply_actions` completes without raising, the `add` and `remove` lists
are disjoint; added labels are never already current; `UNREAD` is the
only removable label, removed only by a `mark_read` action and only when
currently present; every added label comes from a `move_message` of that
mailbox or from `mark_unread` adding `UNREAD` when it is absent; and the
mutation sink is called exactly when one of the two lists is non-empty. -/
theorem action_delta_minimality (labels : List String)
    (actions : List ActionDict) (A R : List String) (call : Bool)
    (h : apply_actions labels actions = .ok (A, R, call)) :
    (∀ x, x ∈ A → x ∉ R)
    ∧ (∀ x, x ∈ A → x ∉ labels)
    ∧ (∀ x, x ∈ R → x = "UNREAD" ∧ x ∈ labels ∧ ∃ a ∈ actions, a.type = "mark_read")
    ∧ (∀ x, x ∈ A → ∃ a ∈ actions,
        (a.type = "move_message" ∧ a.mailbox = some x)
        ∨ (a.type = "mark_unread" ∧ x = "UNREAD"))
    ∧ (call = true ↔ (A ≠ [] ∨ R ≠ [])) := by
  rw [apply_actions_eq] at h
  by_cases herr : errFree actions = true
  case neg => rw [if_neg herr] at h; exact absurd h (by simp)
  rw [if_pos herr] at h
  simp only [Except.ok.injEq, Prod.mk.injEq] at h
  obtain ⟨hA, hR, hc⟩ := h
  subst hA; subst hR; subst hc
  refine ⟨?_, ?_, ?_, ?_, ?_⟩
  · intro x hxA hxR
    rw [mem_addsList] at hxA
    rw [mem_remsList] at hxR
    obtain ⟨a, ha, hadd⟩ := hxA
    obtain ⟨b, hb, hbt, hbx, hbu⟩ := hxR
    cases hadd with
    | inl hm => exact hm.2.2 (hbx ▸ hbu)
    | inr hm => exact hm.2.2 hbu
  · intro x hxA
    rw [mem_addsList] at hxA
    obtain ⟨a, ha, hadd⟩ := hxA
    cases hadd with
    | inl hm => exact hm.2.2
    | inr hm => exact hm.2.1 ▸ hm.2.2
  · intro x hxR
    rw [mem_remsList] at hxR
    obtain ⟨a, ha, hat, hax, hau⟩ := hxR
    exact ⟨hax, hax ▸ hau, a, ha, hat⟩
  · intro x hxA
    rw [mem_addsList] at hxA
    obtain ⟨a, ha, hadd⟩ := hxA
    cases hadd with
    | inl hm => exact ⟨a, ha, Or.inl ⟨hm.1, hm.2.1⟩⟩
    | inr hm => exact ⟨a, ha, Or.inr ⟨hm.1, hm.2.1⟩⟩
  · simp [List.isEmpty_iff]

/-- Witness for C3 at the spec's own example: moving to `ARCHIVE` with
current labels `INBOX`, `UNREAD`. -/
theorem action_delta_minimality_witness :
    (∀ x, x ∈ ["ARCHIVE"] → x ∉ ([] : List String))
    ∧ (∀ x, x ∈ ["ARCHIVE"] → x ∉ ["INBOX", "UNREAD"])
    ∧ (∀ x, x ∈ ([] : List String) →
        x = "UNREAD" ∧ x ∈ ["INBOX", "UNREAD"]
        ∧ ∃ a ∈ [exMoveArchive], a.type = "mark_read")
    ∧ (∀ x, x ∈ ["ARCHIVE"] → ∃ a ∈ [exMoveArchive],
        (a.type = "move_message" ∧ a.mailbox = some x)
        ∨ (a.type = "mark_unread" ∧ x = "UNREAD"))
    ∧ (true = true ↔ (["ARCHIVE"] ≠ ([] : List String)
        ∨ ([] : List String) ≠ ([] : List String))) :=
  action_delta_minimality ["INBOX", "UNREAD"] [exMoveArchive]
    ["ARCHIVE"] [] true (by decide)

/-- C4 counterexample: the resolver is a pure function of
`(current_labels, actions)`, so a second pass with the *same*
`current_labels` repeats the first pass's delta instead of returning
empty sets: on `current_labels = []`, `actions = [move_message "Work"]`
both passes return `add = ["Work"]`, not `add = ∅, remove = ∅`. -/
theorem resolver_second_pass_not_empty :
    apply_actions [] [⟨"move_message", some "Work"⟩] = .ok (["Work"], [], true)
    ∧ apply_actions [] [⟨"move_message", some "Work"⟩] ≠ .ok ([], [], false) :=
  ⟨by decide, by decide⟩

/-- C4 amended: the resolver is idempotent across an applied mutation.
If a first pass on `current_labels` returns the delta `(A, R)` and the
mutation is applied (giving `labelsAfter labels A R`), a second pass
over the same actions returns `add = ∅, remove = ∅` — provided the
action list does not contain both a `mark_read` and an action that adds
`UNREAD` (`mark_unread`, or `move_message` to `UNREAD`), a combination
under which the two passes flip the `UNREAD` label back and forth. -/
theorem resolver_idempotent_updated_labels (labels : List String)
    (actions : List ActionDict) (A R : List String) (call : Bool)
    (h : apply_actions labels actions = .ok (A, R, call))
    (hconf : ¬ ((∃ a ∈ actions, a.type = "mark_read")
        ∧ ∃ a ∈ actions, a.type = "mark_unread"
            ∨ (a.type = "move_message" ∧ a.mailbox = some "UNREAD"))) :
    apply_actions (labelsAfter labels A R) actions = .ok ([], [], false) := by
  rw [apply_actions_eq] at h
  by_cases herr : errFree actions = true
  case neg => rw [if_neg herr] at h; exact absurd h (by simp)
  rw [if_pos herr] at h
  simp only [Except.ok.injEq, Prod.mk.injEq] at h
  obtain ⟨hA, hR, hc⟩ := h
  have hadds : addsList (labelsAfter labels A R) actions = [] := by
    rw [List.eq_nil_iff_forall_not_mem]
    intro x hx
    rw [mem_addsList] at hx
    obtain ⟨a, ha, hx⟩ := hx
    cases hx with
    | inl hmv =>
      obtain ⟨ht, hmb, hnot⟩ := hmv
      apply hnot
      rw [mem_labelsAfter]
      by_cases hxl : x ∈ labels
      · refine Or.inl ⟨hxl, fun hxR => ?_⟩
        rw [← hR, mem_remsList] at hxR
        obtain ⟨b, hb, hbt, hbx, hbu⟩ := hxR
        exact hconf ⟨⟨b, hb, hbt⟩, ⟨a, ha, Or.inr ⟨ht, hbx ▸ hmb⟩⟩⟩
      · refine Or.inr ?_
        rw [← hA, mem_addsList]
        exact ⟨a, ha, Or.inl ⟨ht, hmb, hxl⟩⟩
    | inr hmu =>
      obtain ⟨ht, hx', hnot⟩ := hmu
      apply hnot
      rw [mem_labelsAfter]
      by_cases hul : "UNREAD" ∈ labels
      · refine Or.inl ⟨hul, fun hxR => ?_⟩
        rw [← hR, mem_remsList] at hxR
        obtain ⟨b, hb, hbt, -, -⟩ := hxR
        exact hconf ⟨⟨b, hb, hbt⟩, ⟨a, ha, Or.inl ht⟩⟩
      · refine Or.inr ?_
        rw [← hA, mem_addsList]
        exact ⟨a, ha, Or.inr ⟨ht, rfl, hul⟩⟩
  have hrems : remsList (labelsAfter labels A R) actions = [] := by
    rw [List.eq_nil_iff_forall_not_mem]
    intro x hx
    rw [mem_remsList] at hx
    obtain ⟨a, ha, hat, hax, hau⟩ := hx
    rw [mem_labelsAfter] at hau
    cases hau with
    | inl h1 =>
      obtain ⟨hul, hnr⟩ := h1
      apply hnr
      rw [← hR, mem_remsList]
      exact ⟨a, ha, hat, rfl, hul⟩
    | inr h2 =>
      rw [← hA, mem_addsList] at h2
      obtain ⟨b, hb, hbadd⟩ := h2
      cases hbadd with
      | inl hbm => exact hconf ⟨⟨a, ha, hat⟩, ⟨b, hb, Or.inr ⟨hbm.1, hbm.2.1⟩⟩⟩
      | inr hbu => exact hconf ⟨⟨a, ha, hat⟩, ⟨b, hb, Or.inl hbu.1⟩⟩
  rw [apply_actions_eq, if_pos herr, hadds, hrems]
  rfl

/-- Witness for the amended C4: after applying `add = ["ARCHIVE"]` the
second pass is empty. -/
theorem resolver_idempotent_updated_labels_witness :
    apply_actions (labelsAfter [] ["ARCHIVE"] []) [exMoveArchive]
      = .ok ([], [], false) :=
  resolver_idempotent_updated_labels [] [exMoveArchive] ["ARCHIVE"] [] true
    (by decide) (by decide)

/-- C7 counterexample: a `move_message` action without its `mailbox`
key makes `apply_actions` raise `KeyError` — the action is not skipped
and the following `mark_read` (which would remove `UNREAD`) is never
applied. -/
theorem missing_mailbox_not_skipped :
    apply_actions ["UNREAD"] [exMoveNoMailbox, ⟨"mark_read", none⟩]
      = .error .keyError := by decide

/-- C7 amended: for every action list containing a `move_message`
action that lacks its `mailbox` parameter, action application raises
`KeyError` (a fatal error): the malformed action is not skipped and the
remaining actions are not applied. -/
theorem missing_mailbox_raises_keyerror (labels : List String)
    (actions : List ActionDict)
    (h : ∃ a ∈ actions, a.type = "move_message" ∧ a.mailbox = none) :
    apply_actions labels actions = .error .keyError := by
  rw [apply_actions_eq]
  have herr : errFree actions = false := by
    obtain ⟨a, ha, ht, hm⟩ := h
    by_contra hne
    rw [Bool.not_eq_false] at hne
    rw [errFree, List.all_eq_true] at hne
    have h2 := hne a ha
    rw [ht, hm] at h2
    simp at h2
  simp [herr]

/-- Witness for the amended C7 at a concrete action list. -/
theorem missing_mailbox_raises_keyerror_witness :
    apply_actions [] [exMoveNoMailbox] = .error .keyError :=
  missing_mailbox_raises_keyerror [] [exMoveNoMailbox] (by decide)

/-- Witness for C10 at a concrete misspelled-mode rule. -/
theorem unknown_mode_rule_dropped_witness :
    evaluate exEmail ([] ++ exBadRule :: []) = evaluate exEmail ([] ++ [])
    ∧ evaluate exEmail (({ mode := none, conditions := [], actions := [exAct] } : Rule) :: [])
      = evaluate exEmail (({ mode := some "all", conditions := [], actions := [exAct] } : Rule) :: []) := by
  have h := unknown_mode_rule_dropped exEmail exBadRule (by decide) (by decide)
  exact ⟨h.1 [] [], h.2 [] [exAct] []⟩

end RuleEngine

namespace EmailStorage

/-! ### Helper lemmas: storage upsert -/

theorem filter_none_of_no_key (t : List Row) (k : String) (labs : List String)
    (hno : ∀ r ∈ t, r.message_id ≠ k) :
    (t.map (fun r =>
        if r.message_id == k then { r with labels := labs } else r)).filter
      (fun r => r.message_id == k) = [] := by
  rw [List.filter_eq_nil_iff]
  intro a ha
  rw [List.mem_map] at ha
  obtain ⟨r, hr, rfl⟩ := ha
  rw [if_neg (by simp [hno r hr])]
  simp [hno r hr]

theorem filter_update_of_key (db : List Row) (k : String) (labs : List String)
    (r0 : Row)
    (hnd : List.Pairwise (fun r s => r.message_id ≠ s.message_id) db)
    (hr0 : r0 ∈ db) (hk : r0.message_id = k) :
    (db.map (fun r =>
        if r.message_id == k then { r with labels := labs } else r)).filter
      (fun r => r.message_id == k) = [{ r0 with labels := labs }] := by
  induction db with
  | nil => cases hr0
  | cons h t ih =>
    rw [List.pairwise_cons] at hnd
    obtain ⟨hh, ht⟩ := hnd
    rcases List.mem_cons.mp hr0 with rfl | hr0t
    · have hno : ∀ r ∈ t, r.message_id ≠ k := by
        intro r hr
        exact hk ▸ (hh r hr).symm
      simp only [List.map_cons]
      rw [List.filter_cons, if_pos (by simp [hk])]
      rw [if_pos (by simp [hk])]
      rw [filter_none_of_no_key t k labs hno]
    · have hhk : h.message_id ≠ k := by
        have h2 := hh r0 hr0t
        exact hk ▸ h2
      simp only [List.map_cons]
      rw [List.filter_cons]
      rw [if_neg (by simp [hhk])]
      exact ih ht hr0t

theorem save_email_conflict (strp : String → String → Option Int) (now : Int)
    (db : List Row) (e : EmailDict) (r0 : Row)
    (hnd : keyUnique db) (hr0 : r0 ∈ db) (hk : r0.message_id = e.message_id) :
    (save_email strp now db e).1.filter
        (fun r => r.message_id == e.message_id) = [{ r0 with labels := e.labels }]
    ∧ (save_email strp now db e).1.length = db.length
    ∧ ∀ r ∈ db, r.message_id ≠ e.message_id → r ∈ (save_email strp now db e).1 := by
  have hany : db.any (fun r => r.message_id == e.message_id) = true :=
    List.any_eq_true.mpr ⟨r0, hr0, by simp [hk]⟩
  simp only [save_email, upsert_row, hany, if_pos]
  refine ⟨filter_update_of_key db e.message_id e.labels r0 hnd hr0 hk, ?_, ?_⟩
  · exact List.length_map db _
  · intro r hr hne
    exact List.mem_map.mpr ⟨r, hr, by simp [hne]⟩

theorem upsert_key_mem (db : List Row) (e : EmailDict) (d : Int) :
    ∃ r ∈ upsert_row db e d, r.message_id = e.message_id := by
  unfold upsert_row
  by_cases h : db.any (fun r => r.message_id == e.message_id) = true
  · rw [if_pos h]
    obtain ⟨r0, hr0, hk0⟩ := List.any_eq_true.mp h
    rw [beq_iff_eq] at hk0
    exact ⟨{ r0 with labels := e.labels },
      List.mem_map.mpr ⟨r0, hr0, by simp [hk0]⟩, hk0⟩
  · rw [if_neg h]
    exact ⟨mkRow e d, by simp, rfl⟩

/-! ### Claim theorems: storage -/

/-- C5: upsert-on-conflict overwrites only `labels`. For a table whose
keys are unique, saving a record whose `message_id` already exists
leaves exactly one row under that key — the original row with only its
`labels` column replaced — keeps the table length, and leaves every
other row in place; and inserting a fresh record and then upserting the
same key again yields exactly one row whose `labels` come from the
second call and whose every other column (thread id, sender, subject,
timestamp, body) comes from the first call. -/
theorem upsert_overwrites_only_labels (strp : String → String → Option Int)
    (now now2 : Int) (db : List Row) (hnd : keyUnique db) :
    (∀ (e : EmailDict) (r0 : Row), r0 ∈ db → r0.message_id = e.message_id →
      (save_email strp now db e).1.filter
          (fun r => r.message_id == e.message_id) = [{ r0 with labels := e.labels }]
      ∧ (save_email strp now db e).1.length = db.length
      ∧ ∀ r ∈ db, r.message_id ≠ e.message_id → r ∈ (save_email strp now db e).1)
    ∧ ∀ e1 e2 : EmailDict, (∀ r ∈ db, r.message_id ≠ e1.message_id) →
        e2.message_id = e1.message_id →
        (save_email strp now2 (save_email strp now db e1).1 e2).1.filter
            (fun r => r.message_id == e1.message_id)
          = [{ mkRow e1 (parse_received_date strp now e1.date_received) with
                labels := e2.labels }] := by
  constructor
  · intro e r0 hr0 hk
    exact save_email_conflict strp now db e r0 hnd hr0 hk
  · intro e1 e2 hfresh he
    have hany : db.any (fun r => r.message_id == e1.message_id) = false := by
      by_contra hc
      rw [Bool.not_eq_false, List.any_eq_true] at hc
      obtain ⟨r, hr, hkr⟩ := hc
      rw [beq_iff_eq] at hkr
      exact hfresh r hr hkr
    have hdb1 : (save_email strp now db e1).1
        = db ++ [mkRow e1 (parse_received_date strp now e1.date_received)] := by
      simp [save_email, upsert_row, hany]
    have hnd1 : keyUnique (save_email strp now db e1).1 := by
      rw [hdb1]
      rw [keyUnique, List.pairwise_append]
      refine ⟨hnd, by simp, ?_⟩
      intro a ha b hb
      rw [List.mem_singleton] at hb
      subst hb
      exact hfresh a ha
    have hmem : mkRow e1 (parse_received_date strp now e1.date_received)
        ∈ (save_email strp now db e1).1 := by
      rw [hdb1]; simp
    have hres := save_email_conflict strp now2 (save_email strp now db e1).1 e2
      (mkRow e1 (parse_received_date strp now e1.date_received)) hnd1 hmem
      (by rw [he]; rfl)
    rw [he] at hres
    exact hres.1

/-- Witness for C5: a conflict save on a one-row table, and a
fresh-insert-then-upsert pair, at concrete records. -/
theorem upsert_overwrites_only_labels_witness :
    ((save_email strpNone 9 [exRow] exDict2).1.filter
        (fun r => r.message_id == exDict2.message_id)
      = [{ exRow with labels := exDict2.labels }])
    ∧ (save_email strpNone 9 (save_email strpNone 5 [] exDict1).1 exDict2).1.filter
        (fun r => r.message_id == exDict1.message_id)
      = [{ mkRow exDict1 (parse_received_date strpNone 5 exDict1.date_received) with
            labels := exDict2.labels }] := by
  constructor
  · exact ((upsert_overwrites_only_labels strpNone 9 9 [exRow]
      (by simp [keyUnique])).1 exDict2 exRow (by simp) rfl).1
  · exact (upsert_overwrites_only_labels strpNone 5 9 []
      (by simp [keyUnique])).2 exDict1 exDict2 (by simp) rfl

/-- C6: the date formats are tried in their fixed order and the first
success wins; when every format fails, the save still goes through (the
record's key is present afterwards), the returned effective timestamp is
the current wall-clock time, and a freshly inserted row stores that
fallback timestamp. -/
theorem date_parse_priority_and_fallback (strp : String → String → Option Int)
    (now : Int) (db : List Row) (e : EmailDict) :
    (∀ t, strp "%a, %d %b %Y %H:%M:%S %z" (date_str_of e.date_received) = some t →
      parse_received_date strp now e.date_received = t)
    ∧ (∀ t, strp "%a, %d %b %Y %H:%M:%S %z" (date_str_of e.date_received) = none →
        strp "%d %b %Y %H:%M:%S %z" (date_str_of e.date_received) = some t →
        parse_received_date strp now e.date_received = t)
    ∧ (strp "%a, %d %b %Y %H:%M:%S %z" (date_str_of e.date_received) = none →
        strp "%d %b %Y %H:%M:%S %z" (date_str_of e.date_received) = none →
        (save_email strp now db e).2 = now
        ∧ (∃ r ∈ (save_email strp now db e).1, r.message_id = e.message_id)
        ∧ ((∀ r ∈ db, r.message_id ≠ e.message_id) →
            mkRow e now ∈ (save_email strp now db e).1)) := by
  refine ⟨?_, ?_, ?_⟩
  · intro t h1
    simp [parse_received_date, try_formats, date_formats, h1]
  · intro t h1 h2
    simp [parse_received_date, try_formats, date_formats, h1, h2]
  · intro h1 h2
    have hp : parse_received_date strp now e.date_received = now := by
      simp [parse_received_date, try_formats, date_formats, h1, h2]
    refine ⟨by simp [save_email, hp], ?_, ?_⟩
    · simpa [save_email] using
        upsert_key_mem db e (parse_received_date strp now e.date_received)
    · intro hfresh
      have hany : db.any (fun r => r.message_id == e.message_id) = false := by
        by_contra hc
        rw [Bool.not_eq_false, List.any_eq_true] at hc
        obtain ⟨r, hr, hkr⟩ := hc
        rw [beq_iff_eq] at hkr
        exact hfresh r hr hkr
      simp [save_email, upsert_row, hany, hp]

/-- Witness for C6: each `strptime` outcome at concrete inputs — first
format wins, second format wins, and the total-failure fallback. -/
theorem date_parse_priority_and_fallback_witness :
    parse_received_date strpFirst 5 exDict1.date_received = 11
    ∧ parse_received_date strpSecond 5 exDict1.date_received = 22
    ∧ ((save_email strpNone 5 [] exDict1).2 = 5
        ∧ (∃ r ∈ (save_email strpNone 5 [] exDict1).1,
            r.message_id = exDict1.message_id)
        ∧ mkRow exDict1 5 ∈ (save_email strpNone 5 [] exDict1).1) := by
  refine ⟨?_, ?_, ?_⟩
  · exact (date_parse_priority_and_fallback strpFirst 5 [] exDict1).1 11 rfl
  · exact (date_parse_priority_and_fallback strpSecond 5 [] exDict1).2.1 22 rfl rfl
  · have h := (date_parse_priority_and_fallback strpNone 5 [] exDict1).2.2 rfl rfl
    exact ⟨h.1, h.2.1, h.2.2 (by simp)⟩

end EmailStorage

end GmailProc
